import Mathlib

/-!
Shallow embedding of the trimly audio-editing backend
(`audio_processing.py`, `project_management.py`, `background_tasks.py`)
and verification of the testable properties stated for it.

Times are modelled as rationals, Python dictionaries as structures,
and the SQLite session as an explicit record of tables.
-/

namespace Trimly

/-- A deletion segment dictionary
`{"start_time": float, "end_time": float, "reason": str}` as built by
`EditingEngine`. -/
structure Interval where
  start_time : ℚ
  end_time : ℚ
  reason : String
deriving DecidableEq, Repr

/-- Sort key used by `sorted(segments, key=lambda x: x["start_time"])`. -/
abbrev startLE (a b : Interval) : Prop := a.start_time ≤ b.start_time

instance : IsTotal Interval startLE := ⟨fun a b => le_total a.start_time b.start_time⟩

instance : IsTrans Interval startLE := ⟨fun _ _ _ h h' => le_trans h h'⟩

/-- `sorted(segments, key=lambda x: x["start_time"])` (Python's sort is
stable; insertion sort with `≤` on the key is stable as well). -/
def sortIntervals (segments : List Interval) : List Interval :=
  segments.insertionSort startLE

/-- The loop of `EditingEngine._merge_overlapping_segments`: `last` is the
mutable last element of `merged`; when `current["start_time"] <=
last["end_time"]` the current segment is folded into `last`
(`last["end_time"] = max(...)`, reasons joined with `"; "`), otherwise
`current` is appended. -/
def mergeRun (last : Interval) : List Interval → List Interval
  | [] => [last]
  | current :: rest =>
    if current.start_time ≤ last.end_time then
      mergeRun { start_time := last.start_time
                 end_time := max last.end_time current.end_time
                 reason := last.reason ++ "; " ++ current.reason } rest
    else
      last :: mergeRun current rest

/-- `EditingEngine._merge_overlapping_segments`. -/
def merge_overlapping_segments (segments : List Interval) : List Interval :=
  match sortIntervals segments with
  | [] => []
  | first :: rest => mergeRun first rest

/-- Sum of `end_time - start_time` over a segment list. -/
def totalLength (l : List Interval) : ℚ :=
  (l.map (fun i => i.end_time - i.start_time)).sum

/-- Output gap produced by the `else` branch of the merge loop. -/
abbrev separated (a b : Interval) : Prop := a.end_time < b.start_time

/-- Half-open intervals `[start, end)` do not overlap. -/
abbrev noOverlap (a b : Interval) : Prop :=
  min a.end_time b.end_time ≤ max a.start_time b.start_time

example :
    merge_overlapping_segments
      [⟨0, 2, "a"⟩, ⟨1, 3, "b"⟩] = [⟨0, 3, "a; b"⟩] := by decide

example :
    merge_overlapping_segments [⟨3, 4, "x"⟩, ⟨0, 1, "y"⟩] =
      [⟨0, 1, "y"⟩, ⟨3, 4, "x"⟩] := by decide

/-- The merge loop keeps the start of the accumulated segment, produces a
nonempty list that is ascending by start, and leaves a strict gap between
consecutive output segments. -/
lemma mergeRun_chain :
    ∀ (rest : List Interval) (last : Interval),
      List.Pairwise startLE rest →
      (∀ x ∈ rest, last.start_time ≤ x.start_time) →
      ∃ hd tl, mergeRun last rest = hd :: tl ∧
        hd.start_time = last.start_time ∧
        List.Chain' startLE (hd :: tl) ∧
        List.Chain' separated (hd :: tl) := by
  intro rest
  induction rest with
  | nil =>
    intro last _ _
    exact ⟨last, [], rfl, rfl, List.chain'_singleton _, List.chain'_singleton _⟩
  | cons current rest ih =>
    intro last hpw hle
    rw [List.pairwise_cons] at hpw
    by_cases hc : current.start_time ≤ last.end_time
    · obtain ⟨hd, tl, heq, hstart, h1, h2⟩ :=
        ih { start_time := last.start_time
             end_time := max last.end_time current.end_time
             reason := last.reason ++ "; " ++ current.reason }
          hpw.2
          (fun x hx => hle x (List.mem_cons_of_mem _ hx))
      refine ⟨hd, tl, ?_, hstart, h1, h2⟩
      rw [mergeRun, if_pos hc, heq]
    · obtain ⟨hd, tl, heq, hstart, h1, h2⟩ :=
        ih current hpw.2 (fun x hx => hpw.1 x hx)
      refine ⟨last, mergeRun current rest, ?_, rfl, ?_, ?_⟩
      · rw [mergeRun, if_neg hc]
      · rw [heq, List.chain'_cons]
        exact ⟨le_of_le_of_eq (hle current (List.mem_cons_self _ _)) hstart.symm, h1⟩
      · rw [heq, List.chain'_cons]
        exact ⟨lt_of_lt_of_eq (lt_of_not_le hc) hstart.symm, h2⟩

/-- If consecutive segments already have strict gaps, the merge loop
changes nothing. -/
lemma mergeRun_of_separated :
    ∀ (rest : List Interval) (last : Interval),
      List.Chain' separated (last :: rest) →
      mergeRun last rest = last :: rest := by
  intro rest
  induction rest with
  | nil => intro last _; rfl
  | cons current rest ih =>
    intro last hch
    rw [List.chain'_cons] at hch
    rw [mergeRun, if_neg (not_le_of_lt hch.1), ih current hch.2]

lemma merge_eq_nil {segments : List Interval}
    (h : sortIntervals segments = []) :
    merge_overlapping_segments segments = [] := by
  unfold merge_overlapping_segments
  rw [h]

lemma merge_eq_cons {segments : List Interval} {first : Interval}
    {rest : List Interval} (h : sortIntervals segments = first :: rest) :
    merge_overlapping_segments segments = mergeRun first rest := by
  unfold merge_overlapping_segments
  rw [h]

/-- The merged output is ascending by start and has strict gaps between
consecutive segments. -/
lemma merge_chains (segments : List Interval) :
    List.Chain' startLE (merge_overlapping_segments segments) ∧
    List.Chain' separated (merge_overlapping_segments segments) := by
  cases hs : sortIntervals segments with
  | nil => rw [merge_eq_nil hs]; exact ⟨List.chain'_nil, List.chain'_nil⟩
  | cons first rest =>
    have hsorted : List.Sorted startLE (sortIntervals segments) :=
      List.sorted_insertionSort startLE segments
    rw [hs, List.sorted_cons] at hsorted
    obtain ⟨hd, tl, heq, _, h1, h2⟩ := mergeRun_chain rest first hsorted.2 hsorted.1
    rw [merge_eq_cons hs, heq]
    exact ⟨h1, h2⟩

/-- A strict-gap chain of segments is in particular ascending-or-equal by
start once every gap is a real gap; more precisely, `separated` together
with ascending starts is preserved, and a `startLE` chain is a sorted
list. -/
lemma chain_startLE_sorted {l : List Interval} (h : List.Chain' startLE l) :
    List.Sorted startLE l :=
  List.chain'_iff_pairwise.mp h

/-- C6 — IntervalMerger is idempotent: merging an already-merged list
returns the same list (same intervals, same order, same reasons). -/
theorem C6_interval_merger_idempotent (segments : List Interval) :
    merge_overlapping_segments (merge_overlapping_segments segments) =
      merge_overlapping_segments segments := by
  obtain ⟨h1, h2⟩ := merge_chains segments
  have hsorted : List.Sorted startLE (merge_overlapping_segments segments) :=
    chain_startLE_sorted h1
  have hsort_eq : sortIntervals (merge_overlapping_segments segments) =
      merge_overlapping_segments segments := hsorted.insertionSort_eq
  cases hm : merge_overlapping_segments segments with
  | nil =>
    rw [hm] at hsort_eq
    exact merge_eq_nil hsort_eq
  | cons first rest =>
    rw [hm] at hsort_eq h2
    rw [merge_eq_cons hsort_eq]
    exact mergeRun_of_separated rest first h2

/-- Half-open intervals that are sorted-adjacent do not overlap when the
earlier one ends before (or exactly where) the later one starts. -/
abbrev gapLE (a b : Interval) : Prop := a.end_time ≤ b.start_time

lemma totalLength_nil : totalLength [] = 0 := rfl

lemma totalLength_cons (a : Interval) (l : List Interval) :
    totalLength (a :: l) = (a.end_time - a.start_time) + totalLength l := by
  simp [totalLength]

/-- Every element produced by the merge loop is a genuine interval
(`start < end`) provided the inputs are. -/
lemma mergeRun_bounds :
    ∀ (rest : List Interval) (last : Interval),
      last.start_time < last.end_time →
      (∀ x ∈ rest, x.start_time < x.end_time) →
      ∀ y ∈ mergeRun last rest, y.start_time < y.end_time := by
  intro rest
  induction rest with
  | nil =>
    intro last hb _ y hy
    rw [mergeRun] at hy
    simp only [List.mem_singleton] at hy
    exact hy ▸ hb
  | cons current rest ih =>
    intro last hb hrest y hy
    by_cases hc : current.start_time ≤ last.end_time
    · rw [mergeRun, if_pos hc] at hy
      refine ih _ ?_ (fun x hx => hrest x (List.mem_cons_of_mem _ hx)) y hy
      exact lt_of_lt_of_le hb (le_max_left _ _)
    · rw [mergeRun, if_neg hc] at hy
      rcases List.mem_cons.mp hy with h | h
      · exact h ▸ hb
      · exact ih current (hrest current (List.mem_cons_self _ _))
          (fun x hx => hrest x (List.mem_cons_of_mem _ hx)) y h

/-- In a strict-gap chain of genuine intervals, the head ends strictly
before every later element starts. -/
lemma sep_lt_all :
    ∀ (l : List Interval) (a : Interval),
      List.Chain' separated (a :: l) →
      (∀ x ∈ l, x.start_time < x.end_time) →
      ∀ b ∈ l, a.end_time < b.start_time := by
  intro l
  induction l with
  | nil => intro a _ _ b hb; exact absurd hb (List.not_mem_nil b)
  | cons c l ih =>
    intro a hch hbnd b hb
    rw [List.chain'_cons] at hch
    rcases List.mem_cons.mp hb with h | h
    · exact h ▸ hch.1
    · have hc := ih c hch.2 (fun x hx => hbnd x (List.mem_cons_of_mem _ hx)) b h
      have hcb : c.start_time < c.end_time := hbnd c (List.mem_cons_self _ _)
      linarith [hch.1]

/-- A strict-gap chain of genuine intervals is pairwise non-overlapping. -/
lemma chain_sep_pairwise :
    ∀ (l : List Interval),
      List.Chain' separated l →
      (∀ x ∈ l, x.start_time < x.end_time) →
      List.Pairwise gapLE l := by
  intro l
  induction l with
  | nil => intro _ _; exact List.Pairwise.nil
  | cons a l ih =>
    intro hch hbnd
    refine List.pairwise_cons.mpr ⟨?_, ?_⟩
    · intro b hb
      exact le_of_lt
        (sep_lt_all l a hch (fun x hx => hbnd x (List.mem_cons_of_mem _ hx)) b hb)
    · exact ih ((List.chain'_cons'.mp hch).2)
        (fun x hx => hbnd x (List.mem_cons_of_mem _ hx))

/-- In a `gapLE` chain of genuine intervals, the head ends at or before
every later element's start. -/
lemma gap_le_all :
    ∀ (l : List Interval) (a : Interval),
      List.Chain' gapLE (a :: l) →
      (∀ x ∈ l, x.start_time < x.end_time) →
      ∀ b ∈ l, a.end_time ≤ b.start_time := by
  intro l
  induction l with
  | nil => intro a _ _ b hb; exact absurd hb (List.not_mem_nil b)
  | cons c l ih =>
    intro a hch hbnd b hb
    rw [List.chain'_cons] at hch
    rcases List.mem_cons.mp hb with h | h
    · exact h ▸ hch.1
    · have hc := ih c hch.2 (fun x hx => hbnd x (List.mem_cons_of_mem _ hx)) b h
      have hcb : c.start_time < c.end_time := hbnd c (List.mem_cons_self _ _)
      linarith [hch.1]

/-- A `gapLE` chain of genuine intervals is pairwise `gapLE`. -/
lemma chain_gap_pairwise :
    ∀ (l : List Interval),
      List.Chain' gapLE l →
      (∀ x ∈ l, x.start_time < x.end_time) →
      List.Pairwise gapLE l := by
  intro l
  induction l with
  | nil => intro _ _; exact List.Pairwise.nil
  | cons a l ih =>
    intro hch hbnd
    refine List.pairwise_cons.mpr ⟨?_, ?_⟩
    · exact gap_le_all l a hch (fun x hx => hbnd x (List.mem_cons_of_mem _ hx))
    · exact ih ((List.chain'_cons'.mp hch).2)
        (fun x hx => hbnd x (List.mem_cons_of_mem _ hx))

lemma noOverlap_symm {a b : Interval} (h : noOverlap a b) : noOverlap b a := by
  unfold noOverlap at h ⊢
  rw [min_comm, max_comm]
  exact h

/-- On a list that is sorted by start and consists of genuine intervals,
pairwise non-overlap is the same as every consecutive pair having
`end ≤ start`. -/
lemma pairwise_noOverlap_iff_chain {l : List Interval}
    (hs : List.Sorted startLE l)
    (hbnd : ∀ x ∈ l, x.start_time < x.end_time) :
    List.Pairwise noOverlap l ↔ List.Chain' gapLE l := by
  constructor
  · intro hpw
    have hand := hpw.and hs
    have : List.Pairwise gapLE l := by
      refine hand.imp_of_mem ?_
      intro a b ha hb hab
      obtain ⟨hov, hle⟩ := hab
      have hbb : b.start_time < b.end_time := hbnd b hb
      unfold noOverlap at hov
      rcases min_cases a.end_time b.end_time with ⟨hmin, _⟩ | ⟨hmin, hcmp⟩ <;>
        rcases max_cases a.start_time b.start_time with ⟨hmax, hcmp'⟩ | ⟨hmax, _⟩ <;>
        unfold gapLE <;> linarith
    exact this.chain'
  · intro hch
    have hpw : List.Pairwise gapLE l := chain_gap_pairwise l hch hbnd
    refine hpw.imp_of_mem ?_
    intro a b _ hb hab
    unfold noOverlap
    calc min a.end_time b.end_time ≤ a.end_time := min_le_left _ _
      _ ≤ b.start_time := hab
      _ ≤ max a.start_time b.start_time := le_max_right _ _

/-- Total length accounting for the merge loop: the output never covers
more than the accumulated segment plus the remaining input, and it covers
exactly that iff every consecutive pair (including the accumulated
segment) is non-overlapping. -/
lemma mergeRun_totalLength :
    ∀ (rest : List Interval) (last : Interval),
      last.start_time < last.end_time →
      (∀ x ∈ rest, x.start_time < x.end_time) →
      List.Pairwise startLE rest →
      (∀ x ∈ rest, last.start_time ≤ x.start_time) →
      totalLength (mergeRun last rest) ≤
        (last.end_time - last.start_time) + totalLength rest ∧
      (totalLength (mergeRun last rest) =
          (last.end_time - last.start_time) + totalLength rest ↔
        List.Chain' gapLE (last :: rest)) := by
  intro rest
  induction rest with
  | nil =>
    intro last _ _ _ _
    constructor
    · rw [mergeRun, totalLength_cons, totalLength_nil]
    · exact iff_of_true (by rw [mergeRun, totalLength_cons, totalLength_nil])
        (List.chain'_singleton _)
  | cons current rest ih =>
    intro last hb hbnd hpw hle
    rw [List.pairwise_cons] at hpw
    have hcb : current.start_time < current.end_time :=
      hbnd current (List.mem_cons_self _ _)
    by_cases hc : current.start_time ≤ last.end_time
    · -- merge branch
      set last' : Interval :=
        { start_time := last.start_time
          end_time := max last.end_time current.end_time
          reason := last.reason ++ "; " ++ current.reason } with hlast'
      have hb' : last'.start_time < last'.end_time :=
        lt_of_lt_of_le hb (le_max_left _ _)
      obtain ⟨ihle, ihiff⟩ :=
        ih last' hb' (fun x hx => hbnd x (List.mem_cons_of_mem _ hx)) hpw.2
          (fun x hx => hle x (List.mem_cons_of_mem _ hx))
      have hrun : mergeRun last (current :: rest) = mergeRun last' rest := by
        rw [mergeRun, if_pos hc]
      have hA' : last'.end_time - last'.start_time ≤
          (last.end_time - last.start_time) +
            (current.end_time - current.start_time) := by
        rcases max_cases last.end_time current.end_time with ⟨hm, _⟩ | ⟨hm, _⟩ <;>
          simp only [hlast'] <;> rw [hm] <;> linarith
      have hexact : last'.end_time - last'.start_time =
          (last.end_time - last.start_time) +
            (current.end_time - current.start_time) ↔
          current.start_time = last.end_time := by
        rcases max_cases last.end_time current.end_time with ⟨hm, hcmp⟩ | ⟨hm, hcmp⟩ <;>
          simp only [hlast'] <;> rw [hm] <;> constructor <;> intro h <;> linarith
      have hconv : last.end_time ≤ current.end_time →
          (List.Chain' gapLE (last' :: rest) ↔
            List.Chain' gapLE (current :: rest)) := by
        intro hce
        have hmax : last'.end_time = current.end_time := by
          simp only [hlast']
          exact max_eq_right hce
        rw [List.chain'_cons', List.chain'_cons']
        constructor
        · rintro ⟨h1, h2⟩
          exact ⟨fun y hy => le_of_le_of_eq' (h1 y hy) hmax.symm, h2⟩
        · rintro ⟨h1, h2⟩
          exact ⟨fun y hy => le_of_le_of_eq' (h1 y hy) hmax, h2⟩
      constructor
      · rw [hrun, totalLength_cons]
        linarith
      · rw [hrun, totalLength_cons]
        constructor
        · intro h
          have heq1 : last'.end_time - last'.start_time =
              (last.end_time - last.start_time) +
                (current.end_time - current.start_time) :=
            le_antisymm hA' (by linarith)
          have hcs : current.start_time = last.end_time := hexact.mp heq1
          have hch' : List.Chain' gapLE (last' :: rest) := ihiff.mp (by linarith)
          rw [List.chain'_cons]
          refine ⟨le_of_eq hcs.symm, ?_⟩
          exact (hconv (by linarith)).mp hch'
        · intro hch
          rw [List.chain'_cons] at hch
          have hcs : current.start_time = last.end_time :=
            le_antisymm hc hch.1
          have hch' : List.Chain' gapLE (last' :: rest) :=
            (hconv (by linarith)).mpr hch.2
          have := ihiff.mpr hch'
          have heq1 := hexact.mpr hcs
          linarith
    · -- append branch
      obtain ⟨ihle, ihiff⟩ :=
        ih current hcb (fun x hx => hbnd x (List.mem_cons_of_mem _ hx)) hpw.2
          hpw.1
      have hrun : mergeRun last (current :: rest) =
          last :: mergeRun current rest := by
        rw [mergeRun, if_neg hc]
      have hgap : last.end_time < current.start_time := lt_of_not_le hc
      constructor
      · rw [hrun, totalLength_cons, totalLength_cons]
        linarith
      · rw [hrun, totalLength_cons, totalLength_cons,
          List.chain'_cons (R := gapLE)]
        constructor
        · intro h
          exact ⟨le_of_lt hgap, ihiff.mp (by linarith)⟩
        · intro h
          have := ihiff.mpr h.2
          linarith

lemma totalLength_perm {l l' : List Interval} (h : l.Perm l') :
    totalLength l = totalLength l' :=
  List.Perm.sum_eq (h.map _)

/-- C1 — For every input list of deletion intervals (each with
`start < end`), `_merge_overlapping_segments` returns a list that is
sorted ascending by start and pairwise non-overlapping, whose total
covered length is at most the sum of the input interval lengths, with
equality iff no two input intervals overlapped. -/
theorem C1_interval_merger_correct (segments : List Interval)
    (hb : ∀ i ∈ segments, i.start_time < i.end_time) :
    List.Pairwise startLE (merge_overlapping_segments segments) ∧
    List.Pairwise gapLE (merge_overlapping_segments segments) ∧
    totalLength (merge_overlapping_segments segments) ≤ totalLength segments ∧
    (totalLength (merge_overlapping_segments segments) = totalLength segments ↔
      List.Pairwise noOverlap segments) := by
  have hperm : (sortIntervals segments).Perm segments :=
    List.perm_insertionSort startLE segments
  have hbnd_sorted : ∀ x ∈ sortIntervals segments, x.start_time < x.end_time :=
    fun x hx => hb x (hperm.mem_iff.mp hx)
  obtain ⟨hch1, hch2⟩ := merge_chains segments
  refine ⟨chain_startLE_sorted hch1, ?_, ?_⟩
  · -- pairwise non-overlap of the output
    cases hs : sortIntervals segments with
    | nil => rw [merge_eq_nil hs]; exact List.Pairwise.nil
    | cons first rest =>
      have hbf : first.start_time < first.end_time :=
        hbnd_sorted first (by rw [hs]; exact List.mem_cons_self _ _)
      have hbr : ∀ x ∈ rest, x.start_time < x.end_time :=
        fun x hx => hbnd_sorted x (by rw [hs]; exact List.mem_cons_of_mem _ hx)
      have hout : ∀ y ∈ merge_overlapping_segments segments,
          y.start_time < y.end_time := by
        rw [merge_eq_cons hs]
        exact mergeRun_bounds rest first hbf hbr
      exact chain_sep_pairwise _ hch2 hout
  · -- length accounting
    cases hs : sortIntervals segments with
    | nil =>
      have hnil : segments = [] := by
        have := hperm.symm
        rw [hs] at this
        exact this.eq_nil
      rw [merge_eq_nil hs, hnil]
      exact ⟨le_refl _, iff_of_true rfl List.Pairwise.nil⟩
    | cons first rest =>
      have hsorted : List.Sorted startLE (sortIntervals segments) :=
        List.sorted_insertionSort startLE segments
      rw [hs, List.sorted_cons] at hsorted
      have hbf : first.start_time < first.end_time :=
        hbnd_sorted first (by rw [hs]; exact List.mem_cons_self _ _)
      have hbr : ∀ x ∈ rest, x.start_time < x.end_time :=
        fun x hx => hbnd_sorted x (by rw [hs]; exact List.mem_cons_of_mem _ hx)
      obtain ⟨hle, hiff⟩ :=
        mergeRun_totalLength rest first hbf hbr hsorted.2 hsorted.1
      have htot : totalLength segments = totalLength (first :: rest) := by
        rw [← hs]
        exact (totalLength_perm hperm).symm
      have hchpair : List.Pairwise noOverlap segments ↔
          List.Chain' gapLE (first :: rest) := by
        rw [show (List.Pairwise noOverlap segments ↔
              List.Pairwise noOverlap (sortIntervals segments)) from
            (hperm.pairwise_iff (fun h => noOverlap_symm h)).symm, hs]
        exact pairwise_noOverlap_iff_chain
          (List.sorted_cons.mpr hsorted)
          (by intro x hx
              rcases List.mem_cons.mp hx with h | h
              · exact h ▸ hbf
              · exact hbr x h)
      rw [merge_eq_cons hs, htot, totalLength_cons]
      exact ⟨hle, hiff.trans hchpair.symm⟩

/-- Witness for C1 at a concrete input: two overlapping intervals. -/
theorem C1_interval_merger_correct_witness :
    (∀ i ∈ [(⟨0, 2, "a"⟩ : Interval), ⟨1, 3, "b"⟩],
      i.start_time < i.end_time) ∧
    (List.Pairwise startLE
        (merge_overlapping_segments [(⟨0, 2, "a"⟩ : Interval), ⟨1, 3, "b"⟩]) ∧
      List.Pairwise gapLE
        (merge_overlapping_segments [(⟨0, 2, "a"⟩ : Interval), ⟨1, 3, "b"⟩]) ∧
      totalLength
          (merge_overlapping_segments [(⟨0, 2, "a"⟩ : Interval), ⟨1, 3, "b"⟩]) ≤
        totalLength [(⟨0, 2, "a"⟩ : Interval), ⟨1, 3, "b"⟩] ∧
      (totalLength
            (merge_overlapping_segments
              [(⟨0, 2, "a"⟩ : Interval), ⟨1, 3, "b"⟩]) =
          totalLength [(⟨0, 2, "a"⟩ : Interval), ⟨1, 3, "b"⟩] ↔
        List.Pairwise noOverlap [(⟨0, 2, "a"⟩ : Interval), ⟨1, 3, "b"⟩])) :=
  ⟨by decide, C1_interval_merger_correct _ (by decide)⟩

/-! ### Mutation of the caller's segment list (C9)

`cut_audio_segments` calls `segments_to_remove.sort(...)`, reordering the
caller's list in place, and `_merge_overlapping_segments` assigns
`last["end_time"] = ...` and `last["reason"] += ...` on dictionaries that
are shared with the caller's list (`sorted` copies the list but not the
dictionaries).  The two definitions below give the value of the caller's
list after each call. -/

/-- Value of the caller's `segments_to_remove` list after
`cut_audio_segments` (the in-place `list.sort(key=...)`). -/
def cut_segments_post_state (segments : List Interval) : List Interval :=
  sortIntervals segments

/-- The merge loop over (original position, dictionary value) pairs.  A
pair that absorbs later segments keeps its original position, so the
result lists the final value of each mutated dictionary together with the
position that dictionary has in the caller's list. -/
def mergeRunIdx (last : ℕ × Interval) : List (ℕ × Interval) → List (ℕ × Interval)
  | [] => [last]
  | current :: rest =>
    if current.2.start_time ≤ last.2.end_time then
      mergeRunIdx
        (last.1,
          { start_time := last.2.start_time
            end_time := max last.2.end_time current.2.end_time
            reason := last.2.reason ++ "; " ++ current.2.reason }) rest
    else last :: mergeRunIdx current rest

/-- `sorted(segments, key=...)` keeping each dictionary's position in the
caller's list. -/
def sortEnum (segments : List Interval) : List (ℕ × Interval) :=
  segments.enum.insertionSort (fun p q => p.2.start_time ≤ q.2.start_time)

/-- Final (position, value) pairs of the dictionaries retained in
`merged`. -/
def mergeLeaders (segments : List Interval) : List (ℕ × Interval) :=
  match sortEnum segments with
  | [] => []
  | first :: rest => mergeRunIdx first rest

/-- Value of the caller's `segments` list after
`_merge_overlapping_segments`: a dictionary that absorbed later segments
holds the merged value; every other dictionary is unchanged. -/
def merge_post_state (segments : List Interval) : List Interval :=
  segments.enum.map (fun p =>
    ((mergeLeaders segments).find? (fun q => q.1 == p.1)).elim p.2 (fun q => q.2))

/-- C9 counterexample — the engine functions are not mutation-free: with
two overlapping segments, `_merge_overlapping_segments` rewrites the
first dictionary of the caller's list (and re-invocation on the mutated
list gives a different result), and `cut_audio_segments` reorders an
unsorted caller list in place. -/
theorem C9_counterexample :
    merge_post_state [(⟨0, 2, "a"⟩ : Interval), ⟨1, 3, "b"⟩] ≠
        [(⟨0, 2, "a"⟩ : Interval), ⟨1, 3, "b"⟩] ∧
    merge_overlapping_segments
        (merge_post_state [(⟨0, 2, "a"⟩ : Interval), ⟨1, 3, "b"⟩]) ≠
      merge_overlapping_segments [(⟨0, 2, "a"⟩ : Interval), ⟨1, 3, "b"⟩] ∧
    cut_segments_post_state [(⟨1, 2, "x"⟩ : Interval), ⟨0, 1, "y"⟩] ≠
      [(⟨1, 2, "x"⟩ : Interval), ⟨0, 1, "y"⟩] := by decide

lemma mem_enumFrom_le :
    ∀ (l : List Interval) (n : ℕ) (p : ℕ × Interval),
      p ∈ l.enumFrom n → n ≤ p.1 := by
  intro l
  induction l with
  | nil => intro n p hp; exact absurd hp (List.not_mem_nil p)
  | cons a l ih =>
    intro n p hp
    rw [List.enumFrom_cons] at hp
    rcases List.mem_cons.mp hp with h | h
    · exact h ▸ le_refl n
    · exact le_trans (Nat.le_succ n) (ih (n + 1) p h)

lemma find?_enumFrom_self :
    ∀ (l : List Interval) (n : ℕ) (p : ℕ × Interval),
      p ∈ l.enumFrom n →
      (l.enumFrom n).find? (fun q => q.1 == p.1) = some p := by
  intro l
  induction l with
  | nil => intro n p hp; exact absurd hp (List.not_mem_nil p)
  | cons a l ih =>
    intro n p hp
    rw [List.enumFrom_cons] at hp ⊢
    rcases List.mem_cons.mp hp with h | h
    · rw [← h, List.find?_cons_of_pos _ (by simp)]
    · have hgt : n + 1 ≤ p.1 := mem_enumFrom_le l (n + 1) p h
      rw [List.find?_cons_of_neg _ (by simp; omega), ih (n + 1) p h]

/-- C9 amended — when the caller's list is already sorted by start with a
strict gap between consecutive segments, neither engine function mutates
it, and re-invocation gives the same result. -/
theorem C9_no_mutation_when_separated (segments : List Interval)
    (hs : List.Sorted startLE segments)
    (hsep : List.Chain' separated segments) :
    cut_segments_post_state segments = segments ∧
    merge_post_state segments = segments ∧
    merge_overlapping_segments (merge_post_state segments) =
      merge_overlapping_segments segments := by
  have hsnd : segments.enum.map Prod.snd = segments :=
    List.enumFrom_map_snd 0 segments
  have hpair : List.Pairwise
      (fun p q : ℕ × Interval => p.2.start_time ≤ q.2.start_time)
      segments.enum := by
    refine (List.pairwise_map (R := startLE) (f := Prod.snd)).mp ?_
    rw [hsnd]
    exact hs
  have hsortEnum : sortEnum segments = segments.enum :=
    List.Sorted.insertionSort_eq hpair
  have hchEnum : List.Chain'
      (fun p q : ℕ × Interval => p.2.end_time < q.2.start_time)
      segments.enum := by
    refine (List.chain'_map (R := separated) Prod.snd).mp ?_
    rw [hsnd]
    exact hsep
  have hrunIdx : ∀ (rest : List (ℕ × Interval)) (first : ℕ × Interval),
      List.Chain' (fun p q : ℕ × Interval => p.2.end_time < q.2.start_time)
        (first :: rest) →
      mergeRunIdx first rest = first :: rest := by
    intro rest
    induction rest with
    | nil => intro first _; rfl
    | cons current rest ih =>
      intro first hch
      rw [List.chain'_cons] at hch
      rw [mergeRunIdx, if_neg (not_le_of_lt hch.1), ih current hch.2]
  have hleaders : mergeLeaders segments = segments.enum := by
    unfold mergeLeaders
    rw [hsortEnum]
    cases he : segments.enum with
    | nil => rfl
    | cons first rest =>
      rw [he] at hchEnum
      exact hrunIdx rest first hchEnum
  have hpost : merge_post_state segments = segments := by
    unfold merge_post_state
    rw [hleaders]
    have hcongr : segments.enum.map (fun p =>
        ((segments.enum.find? (fun q => q.1 == p.1)).elim p.2 (fun q => q.2))) =
        segments.enum.map Prod.snd := by
      refine List.map_congr_left (fun p hp => ?_)
      have hfind : segments.enum.find? (fun q => q.1 == p.1) = some p :=
        find?_enumFrom_self segments 0 p hp
      rw [hfind]
      rfl
    rw [hcongr, hsnd]
  refine ⟨List.Sorted.insertionSort_eq hs, hpost, by rw [hpost]⟩

/-- Witness for the amended C9 at a sorted, separated concrete list. -/
theorem C9_no_mutation_when_separated_witness :
    List.Sorted startLE [(⟨0, 1, "a"⟩ : Interval), ⟨2, 3, "b"⟩] ∧
    List.Chain' separated [(⟨0, 1, "a"⟩ : Interval), ⟨2, 3, "b"⟩] ∧
    (cut_segments_post_state [(⟨0, 1, "a"⟩ : Interval), ⟨2, 3, "b"⟩] =
        [(⟨0, 1, "a"⟩ : Interval), ⟨2, 3, "b"⟩] ∧
      merge_post_state [(⟨0, 1, "a"⟩ : Interval), ⟨2, 3, "b"⟩] =
        [(⟨0, 1, "a"⟩ : Interval), ⟨2, 3, "b"⟩] ∧
      merge_overlapping_segments
          (merge_post_state [(⟨0, 1, "a"⟩ : Interval), ⟨2, 3, "b"⟩]) =
        merge_overlapping_segments [(⟨0, 1, "a"⟩ : Interval), ⟨2, 3, "b"⟩]) :=
  ⟨by decide,
    List.chain'_cons.mpr ⟨by decide, List.chain'_singleton _⟩,
    C9_no_mutation_when_separated _ (by decide)
      (List.chain'_cons.mpr ⟨by decide, List.chain'_singleton _⟩)⟩

/-! ### AudioCutter (`cut_audio_segments` and `_cut_audio_with_ffmpeg`)

The waveform backend loads `n` samples at rate `sr`, computes the keep
segments as the complement of the (sorted) deletion segments within
`[0, len(audio)/sr]`, slices the sample array, and reports duration
statistics.  Sample times are rationals; `int()` truncation and Python
slice clamping are modelled exactly for the non-negative indices this
code produces. -/

/-- Python `int()` (truncation toward zero) on a rational. -/
def pyInt (q : ℚ) : ℤ := if 0 ≤ q then ⌊q⌋ else ⌈q⌉

/-- Length of the Python slice `audio[ss:es]` of an array of `n` samples,
for non-negative indices `ss`, `es` (the only ones this backend
produces). -/
def sliceLen (n : ℕ) (ss es : ℤ) : ℕ :=
  (min es (n : ℤ) - min ss (n : ℤ)).toNat

/-- The keep-segment loop shared by both backends: for each deletion
segment (already sorted by start), keep `(last_end, start)` whenever
`start > last_end`, then advance `last_end` to `max(last_end, end)`;
finally keep the tail `(last_end, audio_duration)` if any. -/
def keepGo (audio_duration : ℚ) (last_end : ℚ) :
    List Interval → List (ℚ × ℚ)
  | [] => if last_end < audio_duration then [(last_end, audio_duration)] else []
  | segment :: rest =>
    (if last_end < segment.start_time then [(last_end, segment.start_time)]
     else []) ++
      keepGo audio_duration (max last_end segment.end_time) rest

/-- Statistics dictionary returned by both cutting backends. -/
structure CutResult where
  success : Bool
  original_duration : ℚ
  new_duration : ℚ
  removed_duration : ℚ
  segments_removed : ℕ
deriving DecidableEq, Repr

/-- `AudioProcessor.cut_audio_segments`, waveform (librosa/numpy)
backend, on audio of `n` samples at rate `sr`. -/
def cut_audio_segments (n sr : ℕ) (segments_to_remove : List Interval) :
    CutResult :=
  let sorted := sortIntervals segments_to_remove
  let audio_duration : ℚ := (n : ℚ) / (sr : ℚ)
  let keep_segments := keepGo audio_duration 0 sorted
  let total_samples : ℕ :=
    (keep_segments.map (fun p =>
      sliceLen n (pyInt (p.1 * (sr : ℚ))) (pyInt (p.2 * (sr : ℚ))))).sum
  let new_duration : ℚ := (total_samples : ℚ) / (sr : ℚ)
  { success := true
    original_duration := audio_duration
    new_duration := new_duration
    removed_duration := audio_duration - new_duration
    segments_removed := segments_to_remove.length }

/-- The `atrim` filter parts built by `_cut_audio_with_ffmpeg` (the same
keep-segment loop, against the probed `original_duration`). -/
def ffmpeg_filter_parts (original_duration : ℚ)
    (segments_to_remove : List Interval) : List (ℚ × ℚ) :=
  keepGo original_duration 0 (sortIntervals segments_to_remove)

/-- `AudioProcessor._cut_audio_with_ffmpeg`.  The new duration is probed
from the written file with `ffprobe`, so it enters the model as the
parameter `probed_new_duration`; `removed_duration` is computed from it
exactly as in the source. -/
def cut_audio_with_ffmpeg (original_duration : ℚ)
    (segments_to_remove : List Interval) (probed_new_duration : ℚ) :
    CutResult :=
  { success := true
    original_duration := original_duration
    new_duration := probed_new_duration
    removed_duration := original_duration - probed_new_duration
    segments_removed := segments_to_remove.length }

/-- C2 — for every source audio and every ascending, non-overlapping
deletion set clamped to `[0, duration]`, both backends report
`original_duration`, `new_duration`, `removed_duration` and
`segments_removed`, and `removed_duration + new_duration` equals
`original_duration` within `1e-3` seconds (in fact exactly, since both
backends compute `removed_duration` as the difference). -/
theorem C2_duration_invariant (n sr : ℕ) (segments : List Interval)
    (probed_new_duration : ℚ)
    (hsr : 0 < sr)
    (hasc : List.Pairwise startLE segments)
    (hnov : List.Pairwise gapLE segments)
    (hclamp : ∀ i ∈ segments, 0 ≤ i.start_time ∧
      i.end_time ≤ (n : ℚ) / (sr : ℚ)) :
    (|(cut_audio_segments n sr segments).removed_duration +
          (cut_audio_segments n sr segments).new_duration -
        (cut_audio_segments n sr segments).original_duration| ≤ 1 / 1000 ∧
      (cut_audio_segments n sr segments).segments_removed =
        segments.length) ∧
    (∀ D : ℚ, D = (n : ℚ) / (sr : ℚ) →
      |(cut_audio_with_ffmpeg D segments probed_new_duration).removed_duration +
          (cut_audio_with_ffmpeg D segments probed_new_duration).new_duration -
        (cut_audio_with_ffmpeg D segments probed_new_duration).original_duration|
          ≤ 1 / 1000 ∧
      (cut_audio_with_ffmpeg D segments probed_new_duration).segments_removed =
        segments.length) := by
  have key : ∀ r : CutResult,
      r.removed_duration = r.original_duration - r.new_duration →
      |r.removed_duration + r.new_duration - r.original_duration| ≤ 1 / 1000 := by
    intro r h
    rw [h]
    have hz : r.original_duration - r.new_duration + r.new_duration -
        r.original_duration = 0 := by ring
    rw [hz]
    norm_num
  exact ⟨⟨key _ rfl, rfl⟩, fun D _ => ⟨key _ rfl, rfl⟩⟩

/-- Witness for C2 at concrete audio (10 samples at 5 Hz) and the empty
deletion set. -/
theorem C2_duration_invariant_witness :
    (0 < 5 ∧ List.Pairwise startLE ([] : List Interval) ∧
      List.Pairwise gapLE ([] : List Interval) ∧
      (∀ i ∈ ([] : List Interval), 0 ≤ i.start_time ∧
        i.end_time ≤ (10 : ℚ) / (5 : ℚ))) ∧
    ((|(cut_audio_segments 10 5 []).removed_duration +
          (cut_audio_segments 10 5 []).new_duration -
        (cut_audio_segments 10 5 []).original_duration| ≤ 1 / 1000 ∧
      (cut_audio_segments 10 5 []).segments_removed = ([] : List Interval).length) ∧
    (∀ D : ℚ, D = (10 : ℚ) / (5 : ℚ) →
      |(cut_audio_with_ffmpeg D [] 7).removed_duration +
          (cut_audio_with_ffmpeg D [] 7).new_duration -
        (cut_audio_with_ffmpeg D [] 7).original_duration| ≤ 1 / 1000 ∧
      (cut_audio_with_ffmpeg D [] 7).segments_removed =
        ([] : List Interval).length)) :=
  ⟨⟨by decide, List.Pairwise.nil, List.Pairwise.nil, by decide⟩,
    C2_duration_invariant 10 5 [] 7 (by decide) List.Pairwise.nil
      List.Pairwise.nil (by decide)⟩

/-- C7 — a single deletion interval covering `[0, duration]` leaves an
empty keep-set, and both backends return success with a minimal
zero/near-zero artifact (the waveform backend writes an empty sample
array, `new_duration = 0`; the ffmpeg backend builds no filter parts and
falls into its `anullsrc` minimal-artifact branch) instead of raising. -/
theorem C7_full_cover_empty_artifact (n sr : ℕ) (hsr : 0 < sr)
    (reason : String) (probed_new_duration : ℚ) :
    keepGo ((n : ℚ) / (sr : ℚ)) 0
        (sortIntervals [⟨0, (n : ℚ) / (sr : ℚ), reason⟩]) = [] ∧
    (cut_audio_segments n sr
        [⟨0, (n : ℚ) / (sr : ℚ), reason⟩]).success = true ∧
    (cut_audio_segments n sr
        [⟨0, (n : ℚ) / (sr : ℚ), reason⟩]).new_duration = 0 ∧
    ffmpeg_filter_parts ((n : ℚ) / (sr : ℚ))
        [⟨0, (n : ℚ) / (sr : ℚ), reason⟩] = [] ∧
    (cut_audio_with_ffmpeg ((n : ℚ) / (sr : ℚ))
        [⟨0, (n : ℚ) / (sr : ℚ), reason⟩] probed_new_duration).success
      = true := by
  have hD : (0 : ℚ) ≤ (n : ℚ) / (sr : ℚ) :=
    div_nonneg (Nat.cast_nonneg n) (Nat.cast_nonneg sr)
  have hsort : sortIntervals [(⟨0, (n : ℚ) / (sr : ℚ), reason⟩ : Interval)] =
      [⟨0, (n : ℚ) / (sr : ℚ), reason⟩] := rfl
  have hkeep : keepGo ((n : ℚ) / (sr : ℚ)) 0
      [(⟨0, (n : ℚ) / (sr : ℚ), reason⟩ : Interval)] = [] := by
    rw [keepGo]
    rw [if_neg (lt_irrefl (0 : ℚ))]
    rw [keepGo]
    rw [max_eq_right hD, if_neg (lt_irrefl ((n : ℚ) / (sr : ℚ)))]
    rfl
  have hnew : (cut_audio_segments n sr
      [⟨0, (n : ℚ) / (sr : ℚ), reason⟩]).new_duration =
      ((((keepGo ((n : ℚ) / (sr : ℚ)) 0
          (sortIntervals [⟨0, (n : ℚ) / (sr : ℚ), reason⟩])).map
            (fun p => sliceLen n (pyInt (p.1 * (sr : ℚ)))
              (pyInt (p.2 * (sr : ℚ))))).sum : ℕ) : ℚ) / (sr : ℚ) := rfl
  have hparts : ffmpeg_filter_parts ((n : ℚ) / (sr : ℚ))
      [(⟨0, (n : ℚ) / (sr : ℚ), reason⟩ : Interval)] =
      keepGo ((n : ℚ) / (sr : ℚ)) 0
        (sortIntervals [⟨0, (n : ℚ) / (sr : ℚ), reason⟩]) := rfl
  refine ⟨by rw [hsort]; exact hkeep, rfl, ?_, ?_, rfl⟩
  · rw [hnew, hsort, hkeep]
    simp
  · rw [hparts, hsort]
    exact hkeep

/-- Witness for C7 at 4 samples, 2 Hz. -/
theorem C7_full_cover_empty_artifact_witness :
    0 < 2 ∧
    (keepGo ((4 : ℕ) / ((2 : ℕ) : ℚ)) 0
        (sortIntervals [⟨0, ((4 : ℕ) : ℚ) / ((2 : ℕ) : ℚ), "cover"⟩]) = [] ∧
      (cut_audio_segments 4 2
          [⟨0, ((4 : ℕ) : ℚ) / ((2 : ℕ) : ℚ), "cover"⟩]).success = true ∧
      (cut_audio_segments 4 2
          [⟨0, ((4 : ℕ) : ℚ) / ((2 : ℕ) : ℚ), "cover"⟩]).new_duration = 0 ∧
      ffmpeg_filter_parts (((4 : ℕ) : ℚ) / ((2 : ℕ) : ℚ))
          [⟨0, ((4 : ℕ) : ℚ) / ((2 : ℕ) : ℚ), "cover"⟩] = [] ∧
      (cut_audio_with_ffmpeg (((4 : ℕ) : ℚ) / ((2 : ℕ) : ℚ))
          [⟨0, ((4 : ℕ) : ℚ) / ((2 : ℕ) : ℚ), "cover"⟩] 7).success = true) :=
  ⟨by decide, C7_full_cover_empty_artifact 4 2 (by decide) "cover" 7⟩

/-! ### SegmentLocator (`identify_filler_words`, `search_keywords`)

Python strings are modelled as `List Char`; `.lower()` as a character
map, `.strip(...)` as dropping a character set from both ends, and `in`
as substring containment. -/

/-- Whitespace stripped by Python's default `str.strip()` (the subset
relevant to transcripts). -/
def wsChars : List Char := [' ', '\t', '\n', '\r']

/-- The punctuation set `".,!?;:\"'()[]{}"` stripped before matching. -/
def punctChars : List Char :=
  ['.', ',', '!', '?', ';', ':', '"', '\'', '(', ')', '[', ']',
    '\x7b', '\x7d']

/-- Python `str.lower()`. -/
def pyLower (s : List Char) : List Char := s.map Char.toLower

/-- Python `str.strip(chars)`: remove characters of `cs` from both
ends. -/
def stripChars (cs : List Char) (s : List Char) : List Char :=
  ((s.dropWhile (fun c => cs.contains c)).reverse.dropWhile
    (fun c => cs.contains c)).reverse

/-- Python `word_info["word"].strip().lower()`. -/
def strippedLower (w : List Char) : List Char := pyLower (stripChars wsChars w)

/-- Python `word.strip(".,!?;:\"'()[]{}").lower()` applied after
`strippedLower`. -/
def cleanWord (w : List Char) : List Char :=
  pyLower (stripChars punctChars (strippedLower w))

/-- Python substring test `needle in hay`. -/
def isSubOf (needle : List Char) : List Char → Bool
  | [] => needle.isEmpty
  | c :: rest => needle.isPrefixOf (c :: rest) || isSubOf needle rest

/-- Accumulator loop of Python `str.split()` (split on whitespace runs,
dropping empty pieces). -/
def splitWsAux (acc : List Char) : List Char → List (List Char)
  | [] => if acc.isEmpty then [] else [acc.reverse]
  | c :: rest =>
    if wsChars.contains c then
      if acc.isEmpty then splitWsAux [] rest
      else acc.reverse :: splitWsAux [] rest
    else splitWsAux (c :: acc) rest

/-- Python `str.split()`. -/
def splitWs (s : List Char) : List (List Char) := splitWsAux [] s

/-- Python `" ".join(pieces)`. -/
def joinSpace (l : List (List Char)) : List Char :=
  (l.intersperse [' ']).flatten

/-- One entry of `transcript_data["words"]`: keys `word`, `start`,
`end` (the latter modelled as `stop` since `end` is a Lean keyword). -/
structure Word where
  word : List Char
  start : ℚ
  stop : ℚ
deriving DecidableEq, Repr

/-- The transcript dictionary; only the `words` key is read by the
locator functions (`transcript_data.get("words", [])`). -/
structure TranscriptData where
  words : List Word
deriving DecidableEq, Repr

/-- Filler lexicon for `"zh"` and `"zh-TW"`. -/
def filler_words_zh : List (List Char) :=
  ["嗯".data, "呃".data, "啊".data, "然後".data, "那個".data, "就是".data,
    "就是說".data, "那一個".data, "這個".data, "那".data, "這".data]

/-- Filler lexicon for `"zh-CN"`. -/
def filler_words_zh_cn : List (List Char) :=
  ["嗯".data, "呃".data, "啊".data, "然后".data, "那个".data, "就是".data,
    "就是说".data, "那一个".data, "这个".data, "那".data, "这".data]

/-- Filler lexicon for `"en"`. -/
def filler_words_en : List (List Char) :=
  ["um".data, "uh".data, "like".data, "you know".data, "so".data,
    "well".data, "actually".data, "basically".data, "literally".data]

/-- Python `filler_words.get(language, filler_words["zh"])`. -/
def target_fillers (language : List Char) : List (List Char) :=
  if language = "zh".data then filler_words_zh
  else if language = "zh-TW".data then filler_words_zh
  else if language = "zh-CN".data then filler_words_zh_cn
  else if language = "en".data then filler_words_en
  else filler_words_zh

/-- One identified filler dictionary. -/
structure FillerMatch where
  word : List Char
  start_time : ℚ
  end_time : ℚ
  type : String
  confidence : ℚ
deriving DecidableEq, Repr

/-- `AudioProcessor.identify_filler_words`. -/
def identify_filler_words (transcript_data : TranscriptData)
    (language : List Char) : List FillerMatch :=
  transcript_data.words.filterMap (fun word_info =>
    if cleanWord word_info.word ∈ target_fillers language then
      some { word := word_info.word
             start_time := word_info.start
             end_time := word_info.stop
             type := "filler_word"
             confidence := 1 }
    else none)

/-- One keyword/phrase match dictionary (`matched` holds
`matched_word` or `matched_phrase` according to `type`). -/
structure KeywordMatch where
  keyword : List Char
  matched : List Char
  start_time : ℚ
  end_time : ℚ
  type : String
  confidence : ℚ
deriving DecidableEq, Repr

/-- `AudioProcessor.search_keywords`.  Confidences 0.9 and 0.95 are the
rationals `mkRat 9 10` and `mkRat 19 20`. -/
def search_keywords (transcript_data : TranscriptData)
    (keywords : List (List Char)) : List KeywordMatch :=
  keywords.flatMap (fun keyword =>
    let keyword_lower := pyLower keyword
    let word_matches := transcript_data.words.filterMap (fun word_info =>
      if isSubOf keyword_lower (cleanWord word_info.word) ||
          isSubOf (cleanWord word_info.word) keyword_lower then
        some { keyword := keyword
               matched := word_info.word
               start_time := word_info.start
               end_time := word_info.stop
               type := "keyword_match"
               confidence := mkRat 9 10 }
      else none)
    let phrase_matches :=
      if 1 < (splitWs keyword).length then
        let keyword_words := splitWs keyword_lower
        (List.range
            (transcript_data.words.length + 1 - keyword_words.length)).filterMap
          (fun i =>
            let window := (transcript_data.words.drop i).take
              keyword_words.length
            if joinSpace (window.map (fun w => cleanWord w.word)) =
                keyword_lower then
              some { keyword := keyword
                     matched := joinSpace (window.map (fun w => w.word))
                     start_time := ((window.map (fun w => w.start)).head?.getD 0)
                     end_time := ((window.map (fun w => w.stop)).getLast?.getD 0)
                     type := "phrase_match"
                     confidence := mkRat 19 20 }
            else none)
      else []
    word_matches ++ phrase_matches)

example :
    identify_filler_words ⟨[⟨"um".data, 0, 1⟩, ⟨"hello".data, 1, 2⟩]⟩
        ("en".data) =
      [{ word := "um".data, start_time := 0, end_time := 1,
         type := "filler_word", confidence := 1 }] := by decide

example :
    (search_keywords ⟨[⟨"You,".data, 0, 1⟩]⟩ ["you know".data]).map
        (fun m => m.type) = ["keyword_match"] := by decide

/-- C4 counterexample — the word-level containment loop is not gated on
single-token keywords: on the transcript `[("you", 0, 1)]`, the
multi-token keyword `"you know"` produces a containment match of type
`keyword_match` (confidence 0.9), so a multi-token keyword does not
match only via a contiguous equal run. -/
theorem C4_counterexample :
    ¬ (∀ m ∈ search_keywords ⟨[⟨"you".data, 0, 1⟩]⟩ ["you know".data],
        1 < (splitWs m.keyword).length → m.type = "phrase_match") := by
  decide

/-- C4 amended — every match emitted by `search_keywords` is either a
word-level containment match (type `keyword_match`, confidence 0.9,
any keyword, single- or multi-token, whose lower-cased text contains or
is contained in the cleaned word) or a phrase match (type
`phrase_match`, confidence 0.95, multi-token keyword, from a contiguous
run of words whose cleaned, space-joined text equals the lower-cased
keyword). -/
theorem C4_keyword_match_characterization (transcript_data : TranscriptData)
    (keywords : List (List Char)) :
    ∀ m ∈ search_keywords transcript_data keywords,
      (m.type = "keyword_match" ∧ m.confidence = mkRat 9 10 ∧
        m.keyword ∈ keywords ∧
        ∃ w ∈ transcript_data.words, m.matched = w.word ∧
          (isSubOf (pyLower m.keyword) (cleanWord w.word) = true ∨
            isSubOf (cleanWord w.word) (pyLower m.keyword) = true)) ∨
      (m.type = "phrase_match" ∧ m.confidence = mkRat 19 20 ∧
        m.keyword ∈ keywords ∧ 1 < (splitWs m.keyword).length ∧
        ∃ i, joinSpace
            (((transcript_data.words.drop i).take
                (splitWs (pyLower m.keyword)).length).map
              (fun w => cleanWord w.word)) = pyLower m.keyword) := by
  intro m hm
  unfold search_keywords at hm
  simp only [List.mem_flatMap] at hm
  obtain ⟨keyword, hkw, hm⟩ := hm
  simp only [List.mem_append] at hm
  rcases hm with hm | hm
  · -- word-level containment loop
    simp only [List.mem_filterMap] at hm
    obtain ⟨w, hw, heq⟩ := hm
    by_cases hc : (isSubOf (pyLower keyword) (cleanWord w.word) ||
        isSubOf (cleanWord w.word) (pyLower keyword)) = true
    · rw [if_pos hc] at heq
      obtain rfl := Option.some.inj heq
      left
      refine ⟨rfl, rfl, hkw, w, hw, rfl, ?_⟩
      simpa using Bool.or_eq_true_iff.mp hc
    · rw [if_neg hc] at heq
      exact absurd heq (Option.noConfusion)
  · -- phrase loop
    by_cases hlen : 1 < (splitWs keyword).length
    · rw [if_pos hlen] at hm
      simp only [List.mem_filterMap] at hm
      obtain ⟨i, _, heq⟩ := hm
      by_cases hc : joinSpace
          (((transcript_data.words.drop i).take
              (splitWs (pyLower keyword)).length).map
            (fun w => cleanWord w.word)) = pyLower keyword
      · rw [if_pos hc] at heq
        obtain rfl := Option.some.inj heq
        right
        exact ⟨rfl, rfl, hkw, hlen, i, hc⟩
      · rw [if_neg hc] at heq
        exact absurd heq (Option.noConfusion)
    · rw [if_neg hlen] at hm
      exact absurd hm (List.not_mem_nil m)

/-- The transcript `[("you", 0.0, 1.0)]` used to exercise the keyword
search. -/
def sampleTranscript : TranscriptData := ⟨[⟨"you".data, 0, 1⟩]⟩

/-- The containment match that `search_keywords` emits for the
multi-token keyword `"you know"` on `sampleTranscript`. -/
def sampleMatch : KeywordMatch :=
  { keyword := "you know".data
    matched := "you".data
    start_time := 0
    end_time := 1
    type := "keyword_match"
    confidence := mkRat 9 10 }

/-- Witness for the amended C4: the containment match of the
counterexample transcript is characterized. -/
theorem C4_keyword_match_characterization_witness :
    sampleMatch ∈ search_keywords sampleTranscript ["you know".data] ∧
    ((sampleMatch.type = "keyword_match" ∧
        sampleMatch.confidence = mkRat 9 10 ∧
        sampleMatch.keyword ∈ ["you know".data] ∧
        ∃ w ∈ sampleTranscript.words, sampleMatch.matched = w.word ∧
          (isSubOf (pyLower sampleMatch.keyword) (cleanWord w.word) = true ∨
            isSubOf (cleanWord w.word) (pyLower sampleMatch.keyword) = true)) ∨
      (sampleMatch.type = "phrase_match" ∧
        sampleMatch.confidence = mkRat 19 20 ∧
        sampleMatch.keyword ∈ ["you know".data] ∧
        1 < (splitWs sampleMatch.keyword).length ∧
        ∃ i, joinSpace
            (((sampleTranscript.words.drop i).take
                (splitWs (pyLower sampleMatch.keyword)).length).map
              (fun w => cleanWord w.word)) = pyLower sampleMatch.keyword)) :=
  ⟨by decide,
    C4_keyword_match_characterization sampleTranscript
      ["you know".data] sampleMatch (by decide)⟩

/-- C10 — filler identification with a language code outside
`{zh, zh-TW, zh-CN, en}` falls back to the `"zh"` lexicon (matching
exactly what the `"zh"` invocation matches), and every emitted filler
match carries confidence exactly 1.0. -/
theorem C10_filler_language_fallback (transcript_data : TranscriptData)
    (language : List Char)
    (h : language ∉ ["zh".data, "zh-TW".data, "zh-CN".data, "en".data]) :
    identify_filler_words transcript_data language =
      identify_filler_words transcript_data ("zh".data) ∧
    ∀ m ∈ identify_filler_words transcript_data language,
      m.confidence = 1 := by
  simp only [List.mem_cons, List.not_mem_nil, or_false, not_or] at h
  obtain ⟨h1, h2, h3, h4⟩ := h
  have htarget : target_fillers language = target_fillers ("zh".data) := by
    unfold target_fillers
    rw [if_neg h1, if_neg h2, if_neg h3, if_neg h4, if_pos rfl]
  constructor
  · unfold identify_filler_words
    rw [htarget]
  · intro m hm
    unfold identify_filler_words at hm
    simp only [List.mem_filterMap] at hm
    obtain ⟨w, _, heq⟩ := hm
    by_cases hc : cleanWord w.word ∈ target_fillers language
    · rw [if_pos hc] at heq
      obtain rfl := Option.some.inj heq
      rfl
    · rw [if_neg hc] at heq
      exact absurd heq (Option.noConfusion)

/-- Witness for C10 at `language = "fr"` and a one-word transcript. -/
theorem C10_filler_language_fallback_witness :
    ("fr".data ∉ ["zh".data, "zh-TW".data, "zh-CN".data, "en".data]) ∧
    (identify_filler_words ⟨[⟨"嗯".data, 0, 1⟩]⟩ ("fr".data) =
        identify_filler_words ⟨[⟨"嗯".data, 0, 1⟩]⟩ ("zh".data) ∧
      ∀ m ∈ identify_filler_words ⟨[⟨"嗯".data, 0, 1⟩]⟩ ("fr".data),
        m.confidence = 1) :=
  ⟨by decide,
    C10_filler_language_fallback ⟨[⟨"嗯".data, 0, 1⟩]⟩ ("fr".data)
      (by decide)⟩

/-! ### EditingEngine.process_edit_operations (C8) -/

/-- One edit-operation dictionary.  `language`, `start_time` and
`end_time` model `operation.get(...)` (absent keys are `none`);
`keywords` and `text` model `operation.get("keywords", [])` and
`operation.get("text", "")`, whose defaults are folded into the field. -/
structure Operation where
  type : String
  language : Option (List Char)
  keywords : List (List Char)
  start_time : Option ℚ
  end_time : Option ℚ
  text : String
deriving DecidableEq, Repr

/-- The `segments_to_remove` accumulation loop of
`EditingEngine.process_edit_operations`. -/
def collect_segments (transcript_data : TranscriptData)
    (operations : List Operation) : List Interval :=
  operations.flatMap (fun operation =>
    if operation.type = "delete_filler" then
      (identify_filler_words transcript_data
          (operation.language.getD ("zh".data))).map
        (fun filler =>
          { start_time := filler.start_time
            end_time := filler.end_time
            reason := "filler_word: " ++ String.mk filler.word })
    else if operation.type = "delete_keyword" then
      (search_keywords transcript_data operation.keywords).map
        (fun keyword_match =>
          { start_time := keyword_match.start_time
            end_time := keyword_match.end_time
            reason := "keyword: " ++ String.mk keyword_match.keyword })
    else if operation.type = "delete_text" then
      match operation.start_time, operation.end_time with
      | some s, some e =>
        [{ start_time := s, end_time := e,
           reason := "manual_delete: " ++ operation.text }]
      | _, _ => []
    else [])

/-- The merged deletion set that `process_edit_operations` passes to the
cutter (`segments_removed_detail`). -/
def process_edit_operations_segments (transcript_data : TranscriptData)
    (operations : List Operation) : List Interval :=
  merge_overlapping_segments (collect_segments transcript_data operations)

/-- A `delete_filler` edit operation as the endpoint sends it. -/
def sampleFillerOp : Operation :=
  { type := "delete_filler"
    language := some ("en".data)
    keywords := []
    start_time := none
    end_time := none
    text := "" }

/-- C8 counterexample — on a transcript with no words, the locator
functions and the edit pipeline return successfully with empty results;
no ValidationError (or any error) is raised anywhere: the functions are
total and never reject an empty or malformed transcript. -/
theorem C8_counterexample :
    identify_filler_words ⟨[]⟩ ("zh".data) = [] ∧
    search_keywords ⟨[]⟩ ["hello".data] = [] ∧
    process_edit_operations_segments ⟨[]⟩ [sampleFillerOp] = [] := by decide

lemma search_keywords_nil_words (transcript_data : TranscriptData)
    (h : transcript_data.words = []) (keywords : List (List Char)) :
    search_keywords transcript_data keywords = [] := by
  unfold search_keywords
  refine List.flatMap_eq_nil_iff.mpr (fun keyword hkw => ?_)
  rw [h]
  simp only [List.filterMap_nil, List.nil_append, List.length_nil]
  by_cases hlen : 1 < (splitWs keyword).length
  · rw [if_pos hlen]
    cases hK : (splitWs (pyLower keyword)).length with
    | zero =>
      have hkw_ne : keyword ≠ [] := by
        intro hnil
        rw [hnil] at hlen
        exact absurd hlen (by decide)
      have hlow_ne : pyLower keyword ≠ [] := by
        intro hnil
        exact hkw_ne (List.map_eq_nil_iff.mp hnil)
      simp only [hK, List.range_succ, List.range_zero]
      simp only [List.filterMap_append, List.filterMap_nil,
        List.filterMap_cons, List.take_nil, List.drop_nil, List.map_nil]
      rw [if_neg (by
        intro hj
        exact hlow_ne (by simpa [joinSpace] using hj.symm))]
      rfl
    | succ k =>
      rw [show 0 + 1 - (k + 1) = 0 by omega]
      rfl
  · rw [if_neg hlen]

/-- C8 amended — an empty transcript is not rejected: filler
identification and keyword search return the empty match list, and the
edit pipeline (for filler/keyword operations) produces an empty merged
deletion set, silently succeeding instead of failing with a
ValidationError. -/
theorem C8_empty_transcript_silent_success (transcript_data : TranscriptData)
    (h : transcript_data.words = []) (language : List Char)
    (keywords : List (List Char)) (operations : List Operation)
    (hops : ∀ op ∈ operations,
      op.type = "delete_filler" ∨ op.type = "delete_keyword") :
    identify_filler_words transcript_data language = [] ∧
    search_keywords transcript_data keywords = [] ∧
    process_edit_operations_segments transcript_data operations = [] := by
  have hfill : ∀ lang, identify_filler_words transcript_data lang = [] := by
    intro lang
    unfold identify_filler_words
    rw [h]
    rfl
  refine ⟨hfill language, search_keywords_nil_words transcript_data h keywords, ?_⟩
  have hcollect : collect_segments transcript_data operations = [] := by
    unfold collect_segments
    refine List.flatMap_eq_nil_iff.mpr (fun op hop => ?_)
    rcases hops op hop with ht | ht
    · rw [if_pos ht, hfill]
      rfl
    · have ht' : op.type ≠ "delete_filler" := by
        rw [ht]
        decide
      rw [if_neg ht', if_pos ht,
        search_keywords_nil_words transcript_data h op.keywords]
      rfl
  unfold process_edit_operations_segments
  rw [hcollect]
  exact merge_eq_nil rfl

/-- Witness for the amended C8 on the empty transcript. -/
theorem C8_empty_transcript_silent_success_witness :
    ((⟨[]⟩ : TranscriptData).words = [] ∧
      (∀ op ∈ [sampleFillerOp],
        op.type = "delete_filler" ∨ op.type = "delete_keyword")) ∧
    (identify_filler_words ⟨[]⟩ ("zh".data) = [] ∧
      search_keywords ⟨[]⟩ ["hi".data] = [] ∧
      process_edit_operations_segments ⟨[]⟩ [sampleFillerOp] = []) :=
  ⟨⟨rfl, by decide⟩,
    C8_empty_transcript_silent_success ⟨[]⟩ rfl ("zh".data) ["hi".data]
      [sampleFillerOp] (by decide)⟩

/-! ### VersionManager (`project_management.py`) and the editing worker
(`background_tasks.py`)

The SQLite session is modelled as an explicit record of tables plus a
path-indexed file store; each operation returns its result together with
the state after the call (`db.commit()` included). -/

/-- A `projects` row (the columns the version manager reads). -/
structure ProjectRec where
  id : ℕ
  user_id : ℕ
deriving DecidableEq, Repr

/-- An `audio_files` row (the columns the version manager reads). -/
structure AudioFileRec where
  id : ℕ
  project_id : ℕ
  filename : String
  file_path : String
  duration_seconds : ℚ
deriving DecidableEq, Repr

/-- An `audio_versions` row (`models_extended.AudioVersion`; note the
model has no status or error-message column). -/
structure AudioVersionRec where
  id : ℕ
  audio_file_id : ℕ
  version_name : String
  file_path : String
  edit_operations : String
  edit_summary : String
  duration_seconds : ℚ
  file_size_bytes : ℕ
deriving DecidableEq, Repr

/-- `TrimlyException(message, code)`. -/
structure TrimlyErr where
  message : String
  code : String
deriving DecidableEq, Repr

/-- Database plus filesystem state seen by `VersionManager` (file store
maps a path to the byte size `shutil.copy2` / `os.path.getsize` see). -/
structure Db where
  projects : List ProjectRec
  audio_files : List AudioFileRec
  audio_versions : List AudioVersionRec
  files : List (String × ℕ)
  next_version_id : ℕ
deriving DecidableEq, Repr

/-- `utils.get_processed_path(user_id, project_id)`. -/
def get_processed_path (user_id project_id : ℕ) : String :=
  "/var/data/processed/" ++ toString user_id ++ "/" ++ toString project_id

/-- The query
`db.query(AudioFile).join(Project).filter(AudioFile.id == audio_file_id,
Project.user_id == user_id).first()`. -/
def find_audio_file_for_user (db : Db) (audio_file_id user_id : ℕ) :
    Option AudioFileRec :=
  db.audio_files.find? (fun af => af.id == audio_file_id &&
    (db.projects.find? (fun p => p.id == af.project_id)).any
      (fun p => p.user_id == user_id))

/-- The collision query
`db.query(AudioVersion).filter(AudioVersion.audio_file_id == ...,
AudioVersion.version_name == ...).first()`. -/
def find_existing_version (db : Db) (audio_file_id : ℕ) (name : String) :
    Option AudioVersionRec :=
  db.audio_versions.find? (fun v =>
    v.audio_file_id == audio_file_id && v.version_name == name)

/-- Result dictionary of the two create operations (the fields the
claims inspect). -/
structure CreateVersionResult where
  version_id : ℕ
  version_name : String
  file_path : String
deriving DecidableEq, Repr

/-- `VersionManager.create_version_from_original`. -/
def create_version_from_original (db : Db) (audio_file_id : ℕ)
    (version_name : String) (user_id : ℕ) :
    Except TrimlyErr CreateVersionResult × Db :=
  match find_audio_file_for_user db audio_file_id user_id with
  | none => (Except.error ⟨"Audio file not found", "AUDIO_FILE_NOT_FOUND"⟩, db)
  | some audio_file =>
    match find_existing_version db audio_file_id version_name with
    | some _ =>
      (Except.error ⟨"Version '" ++ version_name ++ "' already exists",
        "VERSION_EXISTS"⟩, db)
    | none =>
      let output_path := get_processed_path user_id audio_file.project_id ++
        "/" ++ version_name ++ "_" ++ audio_file.filename
      match db.files.lookup audio_file.file_path with
      | none =>
        (Except.error ⟨"copy failed: source file missing", "FILE_IO"⟩, db)
      | some size =>
        let audio_version : AudioVersionRec :=
          { id := db.next_version_id
            audio_file_id := audio_file_id
            version_name := version_name
            file_path := output_path
            edit_operations := "[]"
            edit_summary := "Copy of original file"
            duration_seconds := audio_file.duration_seconds
            file_size_bytes := size }
        (Except.ok ⟨audio_version.id, version_name, output_path⟩,
          { db with
              audio_versions := db.audio_versions ++ [audio_version]
              files := (output_path, size) :: db.files
              next_version_id := db.next_version_id + 1 })

/-- The query for the branch source
(`db.query(AudioVersion).join(AudioFile).join(Project).filter(...)`). -/
def find_source_version_for_user (db : Db) (source_version_id user_id : ℕ) :
    Option AudioVersionRec :=
  db.audio_versions.find? (fun v => v.id == source_version_id &&
    (db.audio_files.find? (fun af => af.id == v.audio_file_id)).any
      (fun af =>
        (db.projects.find? (fun p => p.id == af.project_id)).any
          (fun p => p.user_id == user_id)))

/-- `VersionManager.create_branch_from_version`. -/
def create_branch_from_version (db : Db) (source_version_id : ℕ)
    (new_version_name : String) (user_id : ℕ) :
    Except TrimlyErr CreateVersionResult × Db :=
  match find_source_version_for_user db source_version_id user_id with
  | none => (Except.error ⟨"Source version not found", "VERSION_NOT_FOUND"⟩, db)
  | some source_version =>
    match find_existing_version db source_version.audio_file_id
        new_version_name with
    | some _ =>
      (Except.error ⟨"Version '" ++ new_version_name ++ "' already exists",
        "VERSION_EXISTS"⟩, db)
    | none =>
      match db.audio_files.find?
          (fun af => af.id == source_version.audio_file_id) with
      | none =>
        (Except.error ⟨"audio file relationship missing", "FILE_IO"⟩, db)
      | some audio_file =>
        let output_path := get_processed_path user_id audio_file.project_id ++
          "/" ++ new_version_name ++ "_" ++ audio_file.filename
        match db.files.lookup source_version.file_path with
        | none =>
          (Except.error ⟨"copy failed: source file missing", "FILE_IO"⟩, db)
        | some size =>
          let new_version : AudioVersionRec :=
            { id := db.next_version_id
              audio_file_id := source_version.audio_file_id
              version_name := new_version_name
              file_path := output_path
              edit_operations := source_version.edit_operations
              edit_summary := "Branch from " ++ source_version.version_name
              duration_seconds := source_version.duration_seconds
              file_size_bytes := size }
          (Except.ok ⟨new_version.id, new_version_name, output_path⟩,
            { db with
                audio_versions := db.audio_versions ++ [new_version]
                files := (output_path, size) :: db.files
                next_version_id := db.next_version_id + 1 })

/-- C5 — creating a second Version under an existing name, whether from
the original or by branching, fails with the `VERSION_EXISTS` collision
error and leaves the entire state (rows, files, metadata — in
particular the first Version) unchanged. -/
theorem C5_name_collision_rejected (db : Db)
    (audio_file_id user_id source_version_id : ℕ)
    (version_name new_version_name : String)
    (af : AudioFileRec) (sv : AudioVersionRec)
    (haf : find_audio_file_for_user db audio_file_id user_id = some af)
    (hcoll : (find_existing_version db audio_file_id version_name).isSome
      = true)
    (hsv : find_source_version_for_user db source_version_id user_id
      = some sv)
    (hcoll2 : (find_existing_version db sv.audio_file_id
        new_version_name).isSome = true) :
    create_version_from_original db audio_file_id version_name user_id =
      (Except.error ⟨"Version '" ++ version_name ++ "' already exists",
        "VERSION_EXISTS"⟩, db) ∧
    create_branch_from_version db source_version_id new_version_name user_id =
      (Except.error ⟨"Version '" ++ new_version_name ++ "' already exists",
        "VERSION_EXISTS"⟩, db) := by
  obtain ⟨v1, hv1⟩ := Option.isSome_iff_exists.mp hcoll
  obtain ⟨v2, hv2⟩ := Option.isSome_iff_exists.mp hcoll2
  constructor
  · unfold create_version_from_original
    rw [haf, hv1]
  · unfold create_branch_from_version
    simp only [hsv, hv2]

/-- A one-project, one-file, one-version state used as the collision
witness. -/
def sampleDb : Db :=
  { projects := [⟨1, 7⟩]
    audio_files := [⟨1, 1, "a.mp3", "/orig/a.mp3", 10⟩]
    audio_versions :=
      [⟨1, 1, "v1", "/var/data/processed/7/1/v1_a.mp3", "[]",
        "Copy of original file", 10, 100⟩]
    files := [("/orig/a.mp3", 100), ("/var/data/processed/7/1/v1_a.mp3", 100)]
    next_version_id := 2 }

/-- Witness for C5: re-creating name `v1` on the sample state fails both
ways and leaves the state intact. -/
theorem C5_name_collision_rejected_witness :
    (find_audio_file_for_user sampleDb 1 7 =
        some ⟨1, 1, "a.mp3", "/orig/a.mp3", 10⟩ ∧
      (find_existing_version sampleDb 1 "v1").isSome = true ∧
      find_source_version_for_user sampleDb 1 7 =
        some ⟨1, 1, "v1", "/var/data/processed/7/1/v1_a.mp3", "[]",
          "Copy of original file", 10, 100⟩ ∧
      (find_existing_version sampleDb
          (⟨1, 1, "v1", "/var/data/processed/7/1/v1_a.mp3", "[]",
            "Copy of original file", 10, 100⟩ : AudioVersionRec).audio_file_id
          "v1").isSome = true) ∧
    (create_version_from_original sampleDb 1 "v1" 7 =
        (Except.error ⟨"Version '" ++ "v1" ++ "' already exists",
          "VERSION_EXISTS"⟩, sampleDb) ∧
      create_branch_from_version sampleDb 1 "v1" 7 =
        (Except.error ⟨"Version '" ++ "v1" ++ "' already exists",
          "VERSION_EXISTS"⟩, sampleDb)) :=
  ⟨⟨by decide, by decide, by decide, by decide⟩,
    C5_name_collision_rejected sampleDb 1 7 1 "v1" "v1"
      ⟨1, 1, "a.mp3", "/orig/a.mp3", 10⟩
      ⟨1, 1, "v1", "/var/data/processed/7/1/v1_a.mp3", "[]",
        "Copy of original file", 10, 100⟩
      (by decide) (by decide) (by decide) (by decide)⟩

/-- A `transcripts` row (the columns the worker reads). -/
structure TranscriptRec where
  id : ℕ
  audio_file_id : ℕ
  status : String
  content : String
deriving DecidableEq, Repr

/-- A `usage_logs` row (`resource_id` is omitted: the source reads
`audio_version.id` before the row is flushed, so it is `None`). -/
structure UsageLogRec where
  user_id : ℕ
  action : String
  resource_type : String
  duration_seconds : ℚ
  cost_credits : ℕ
deriving DecidableEq, Repr

/-- Database state seen by
`BackgroundTaskManager.process_audio_editing`. -/
structure WorkerDb where
  audio_files : List AudioFileRec
  transcripts : List TranscriptRec
  audio_versions : List AudioVersionRec
  usage_logs : List UsageLogRec
  next_version_id : ℕ
deriving DecidableEq, Repr

/-- Rendering of one decimal place used in the time-range summary.
Python formats binary floats with `f"{x:.1f}"`; on the rational model
this is rendered as round-half-up to tenths (non-negative times). -/
def fmt1 (q : ℚ) : String :=
  let tenths : ℤ := ⌊q * 10 + (1 : ℚ) / 2⌋
  toString (tenths / 10) ++ "." ++ toString (tenths % 10)

/-- Python `"; ".join` / `", ".join`. -/
def joinSep (sep : String) (parts : List String) : String :=
  (parts.intersperse sep).foldl (fun a b => a ++ b) ""

/-- `BackgroundTaskManager._generate_edit_summary`. -/
def generate_edit_summary (edit_operations : List Operation) : String :=
  let summary_parts := edit_operations.flatMap (fun operation =>
    if operation.type = "delete_filler" then ["移除填充詞"]
    else if operation.type = "delete_keyword" then
      if operation.keywords.isEmpty then []
      else ["移除關鍵字: " ++
        joinSep ", " (operation.keywords.map String.mk)]
    else if operation.type = "delete_text" then
      if operation.text ≠ "" then
        ["移除文字: " ++ String.mk (operation.text.data.take 20) ++ "..."]
      else
        ["移除片段: " ++ fmt1 (operation.start_time.getD 0) ++ "s-" ++
          fmt1 (operation.end_time.getD 0) ++ "s"]
    else [])
  if summary_parts.isEmpty then "自定義編輯" else joinSep "; " summary_parts

/-- Distinguishes the worker's silent early return (audio file missing)
from a completed unit of work. -/
inductive WorkerOutcome where
  | missing_audio : WorkerOutcome
  | completed : ℕ → WorkerOutcome
deriving DecidableEq, Repr

/-- `BackgroundTaskManager.process_audio_editing`.  The engine
invocation (`editing_engine.process_edit_operations`, which performs
decoding, subprocess and disk I/O) enters the model as
`engine_result`; `output_size` is what `os.path.getsize` reports for a
written output.  An uncaught Python exception is `Except.error`
together with the state at the moment it propagates. -/
def process_audio_editing (db : WorkerDb) (audio_file_id : ℕ)
    (edit_operations : List Operation) (version_name : String)
    (user_id : ℕ) (engine_result : Except String CutResult)
    (output_size : ℕ) : Except String WorkerOutcome × WorkerDb :=
  match db.audio_files.find? (fun af => af.id == audio_file_id) with
  | none => (Except.ok WorkerOutcome.missing_audio, db)
  | some audio_file =>
    match db.transcripts.find? (fun t =>
        t.audio_file_id == audio_file_id && t.status == "completed") with
    | none =>
      (Except.error "No completed transcript found for this audio file", db)
    | some _transcript =>
      match engine_result with
      | Except.error e => (Except.error ("Audio editing failed: " ++ e), db)
      | Except.ok result =>
        let output_path := get_processed_path user_id audio_file.project_id ++
          "/" ++ version_name ++ "_" ++ audio_file.filename
        let audio_version : AudioVersionRec :=
          { id := db.next_version_id
            audio_file_id := audio_file_id
            version_name := version_name
            file_path := output_path
            edit_operations := "[ops]"
            edit_summary := generate_edit_summary edit_operations
            duration_seconds := result.new_duration
            file_size_bytes := output_size }
        let usage_log : UsageLogRec :=
          { user_id := user_id
            action := "edit"
            resource_type := "audio_version"
            duration_seconds := result.original_duration
            cost_credits := 0 }
        (Except.ok (WorkerOutcome.completed audio_version.id),
          { db with
              audio_versions := db.audio_versions ++ [audio_version]
              usage_logs := db.usage_logs ++ [usage_log]
              next_version_id := db.next_version_id + 1 })

/-- C3 — behaviour of the editing worker at a failing and at a
succeeding unit of work: when the engine raises, the worker re-raises a
wrapped exception and returns with the database unchanged — no error
status or message is recorded on any Version (the AudioVersion model
has no status column at all) and no usage-accounting event is emitted;
on success it adds exactly one usage log, with `cost_credits = 0`. -/
theorem C3_failure_not_recorded_no_usage_event (db : WorkerDb)
    (audio_file_id : ℕ) (edit_operations : List Operation)
    (version_name : String) (user_id : ℕ) (engine_message : String)
    (engine_ok : CutResult) (output_size : ℕ)
    (af : AudioFileRec) (tr : TranscriptRec)
    (haf : db.audio_files.find? (fun a => a.id == audio_file_id) = some af)
    (htr : db.transcripts.find? (fun t =>
      t.audio_file_id == audio_file_id && t.status == "completed")
        = some tr) :
    process_audio_editing db audio_file_id edit_operations version_name
        user_id (Except.error engine_message) output_size =
      (Except.error ("Audio editing failed: " ++ engine_message), db) ∧
    (process_audio_editing db audio_file_id edit_operations version_name
        user_id (Except.ok engine_ok) output_size).2.usage_logs =
      db.usage_logs ++
        [{ user_id := user_id
           action := "edit"
           resource_type := "audio_version"
           duration_seconds := engine_ok.original_duration
           cost_credits := 0 }] := by
  constructor
  · unfold process_audio_editing
    rw [haf, htr]
  · unfold process_audio_editing
    rw [haf, htr]

/-- Sample worker state with one audio file and a completed
transcript. -/
def sampleWorkerDb : WorkerDb :=
  { audio_files := [⟨1, 1, "a.mp3", "/orig/a.mp3", 10⟩]
    transcripts := [⟨1, 1, "completed", "words"⟩]
    audio_versions := []
    usage_logs := []
    next_version_id := 1 }

/-- A successful engine result used in the C3 witness. -/
def sampleCutResult : CutResult :=
  { success := true
    original_duration := 10
    new_duration := 8
    removed_duration := 2
    segments_removed := 1 }

/-- Witness for C3 on the sample worker state with an ffmpeg-style
engine failure and a successful run. -/
theorem C3_failure_not_recorded_no_usage_event_witness :
    (sampleWorkerDb.audio_files.find? (fun a => a.id == 1) =
        some ⟨1, 1, "a.mp3", "/orig/a.mp3", 10⟩ ∧
      sampleWorkerDb.transcripts.find? (fun t =>
        t.audio_file_id == 1 && t.status == "completed") =
          some ⟨1, 1, "completed", "words"⟩) ∧
    (process_audio_editing sampleWorkerDb 1 [sampleFillerOp] "v1" 7
        (Except.error "ffmpeg failed: exit 1") 0 =
      (Except.error ("Audio editing failed: " ++ "ffmpeg failed: exit 1"),
        sampleWorkerDb) ∧
    (process_audio_editing sampleWorkerDb 1 [sampleFillerOp] "v1" 7
        (Except.ok sampleCutResult) 50).2.usage_logs =
      sampleWorkerDb.usage_logs ++
        [{ user_id := 7
           action := "edit"
           resource_type := "audio_version"
           duration_seconds := sampleCutResult.original_duration
           cost_credits := 0 }]) :=
  ⟨⟨by decide, by decide⟩,
    C3_failure_not_recorded_no_usage_event sampleWorkerDb 1 [sampleFillerOp]
      "v1" 7 "ffmpeg failed: exit 1" sampleCutResult 50
      ⟨1, 1, "a.mp3", "/orig/a.mp3", 10⟩ ⟨1, 1, "completed", "words"⟩
      (by decide) (by decide)⟩

end Trimly
